import Mathlib

/-!
Verification of the training-agent orchestration core.

The definitions below are a shallow embedding of the repository's Python
code: `TrainingAgent._truncate_old_images` and the tool-result plumbing of
`TrainingAgent.agentic_loop` / `TrainingAgent._execute_custom_tool`
(src/training_agent/agent.py), and the `ModuleProgress` / `TrainingState`
progress store (src/training_agent/state.py).  Python dicts holding the
message history are modelled by a closed set of content-block variants;
the progress store's dict is modelled by an association list that keeps
insertion order, as a Python dict does.
-/

namespace TrainingAgent

/-- A content block inside a `tool_result` block's `content` list.
`image s` models `{"type": "image", "source": s}` (the payload `s` stands
for the base64 data); `text t` models `{"type": "text", "text": t}`;
`other tag` models any block whose `"type"` is neither. -/
inductive RItem where
  | image (source : String)
  | text (t : String)
  | other (tag : String)
deriving DecidableEq, Repr

/-- A content block of a message's `content` list: a `tool_result` block
(whose own `content` is a block list, or a bare string / absent, modelled
by `none`), an image embedded directly in the message, a text block, or
any other block type. -/
inductive CItem where
  | toolResult (rc : Option (List RItem))
  | image (source : String)
  | text (t : String)
  | other (tag : String)
deriving DecidableEq, Repr

/-- One turn of the conversation history: a role and a content which is a
block list (`some`) or a bare string (`none`), as both occur in
`agentic_loop`. -/
structure Message where
  role : String
  content : Option (List CItem)
deriving DecidableEq, Repr

/-- The placeholder `_truncate_old_images` writes over an evicted image. -/
def placeholder : String := "[Previous screenshot removed to save context]"

/-- One step of the eviction scan on a block inside a tool result:
`image_count` is incremented on an image block, and once it exceeds
`keep_recent` the block is rewritten in place to the placeholder text,
its `source` payload deleted (agent.py lines 176-183). -/
def truncRItem (keep c : Nat) (r : RItem) : RItem × Nat :=
  match r with
  | .image _ => if c + 1 > keep then (.text placeholder, c + 1) else (r, c + 1)
  | _ => (r, c)

/-- The eviction scan over a tool result's `content` list, in list order,
threading the running image count. -/
def truncRItems (keep : Nat) : Nat → List RItem → List RItem × Nat
  | c, [] => ([], c)
  | c, r :: rs =>
    let p := truncRItem keep c r
    let q := truncRItems keep p.2 rs
    (p.1 :: q.1, q.2)

/-- The eviction scan on one block of a message's content: only
`tool_result` blocks whose content is a list are entered (agent.py lines
173-175); every other block is left as it is. -/
def truncCItem (keep c : Nat) (it : CItem) : CItem × Nat :=
  match it with
  | .toolResult (some rc) =>
    let p := truncRItems keep c rc
    (.toolResult (some p.1), p.2)
  | _ => (it, c)

/-- The eviction scan over a message's content list, in list order. -/
def truncCItems (keep : Nat) : Nat → List CItem → List CItem × Nat
  | c, [] => ([], c)
  | c, it :: its =>
    let p := truncCItem keep c it
    let q := truncCItems keep p.2 its
    (p.1 :: q.1, q.2)

/-- The eviction scan on one message: only user-role messages whose
content is a list are entered (agent.py lines 169-171). -/
def truncMessage (keep c : Nat) (m : Message) : Message × Nat :=
  if m.role = "user" then
    match m.content with
    | some items =>
      let p := truncCItems keep c items
      ({ m with content := some p.1 }, p.2)
    | none => (m, c)
  else (m, c)

/-- The eviction scan over a list of messages already put in the order
`reversed(messages)` walks them: most recent first. -/
def truncMessagesRev (keep : Nat) : Nat → List Message → List Message × Nat
  | c, [] => ([], c)
  | c, m :: ms =>
    let p := truncMessage keep c m
    let q := truncMessagesRev keep p.2 ms
    (p.1 :: q.1, q.2)

/-- `TrainingAgent._truncate_old_images` (agent.py lines 164-185): walk
the history most recent message first, counting images found inside
tool-result blocks of user messages, and rewrite in place every image
counted past `keep_recent` to the placeholder text.  The Python mutates
the list in place and returns it in its original order; here the walk
runs on the reversed list and the result is reversed back. -/
def truncate_old_images (messages : List Message) (keep_recent : Nat) : List Message :=
  ((truncMessagesRev keep_recent 0 messages.reverse).1).reverse

/-- The image payloads inside a tool result's content, in list order. -/
def rItemsImages (rs : List RItem) : List String :=
  rs.filterMap fun r => match r with | .image s => some s | _ => none

/-- The image payloads the eviction scan can see in one content block. -/
def cItemImages : CItem → List String
  | .toolResult (some rc) => rItemsImages rc
  | _ => []

/-- The image payloads the eviction scan can see in one message: only
tool-result-nested images of user-role messages. -/
def messageImages (m : Message) : List String :=
  if m.role = "user" then
    match m.content with
    | some items => (items.map cItemImages).flatten
    | none => []
  else []

/-- All image payloads the eviction scan can see, in the order the scan
visits them: messages most recent first, blocks within a message in list
order. -/
def scanImages (messages : List Message) : List String :=
  (messages.reverse.map messageImages).flatten

/-- Image payloads of a list of content blocks, in list order. -/
def cItemsImages (its : List CItem) : List String :=
  (its.map cItemImages).flatten

/-- Image payloads visible to the scan in an already-reversed message
list, in scan order. -/
def msgsRevImages (ms : List Message) : List String :=
  (ms.map messageImages).flatten

/-- How eviction may change a block inside a tool result: it is left
untouched, or it was an image and is now the placeholder text block. -/
def RRel (r r' : RItem) : Prop :=
  r' = r ∨ ∃ s, r = .image s ∧ r' = .text placeholder

/-- How eviction may change a block of a message's content: untouched,
or a tool-result block whose inner blocks changed only per `RRel`. -/
def CRel (it it' : CItem) : Prop :=
  it' = it ∨ ∃ rc rc', it = .toolResult (some rc) ∧ it' = .toolResult (some rc') ∧
    List.Forall₂ RRel rc rc'

/-- How eviction may change a message: the role is kept, a non-user
message is kept whole, and a user message's content blocks change only
per `CRel`, in place. -/
def MRel (m m' : Message) : Prop :=
  m'.role = m.role ∧ (m.role ≠ "user" → m' = m) ∧
    (m' = m ∨ ∃ its its', m.content = some its ∧ m'.content = some its' ∧
      List.Forall₂ CRel its its')

/-- A content block with every tool-result interior blanked: what a
message looks like outside tool-result interiors. -/
def scrubCItem : CItem → CItem
  | .toolResult _ => .toolResult none
  | it => it

/-- A message seen outside tool-result interiors. -/
def viewMsg (m : Message) : Message :=
  { m with content := m.content.map (List.map scrubCItem) }

/-- Is this block an image block? -/
def RItem.isImageB : RItem → Bool
  | .image _ => true
  | _ => false

end TrainingAgent

namespace TrainingState

/-- `ModuleProgress` (state.py lines 16-26): progress for one training
module.  Python ints are modelled by `Int`. -/
structure ModuleProgress where
  module_id : String
  module_name : String
  video_watched : Bool := false
  assessment_attempts : Int := 0
  assessment_passed : Bool := false
  questions_answered : Int := 0
  questions_correct : Int := 0
  last_attempt : Option String := none
deriving DecidableEq, Repr

/-- A JSON value as `json.dump` / `json.load` handle it here: strings,
integers, booleans, null, objects and arrays. -/
inductive JVal where
  | str (s : String)
  | int (n : Int)
  | bool (b : Bool)
  | null
  | obj (fields : List (String × JVal))
  | arr (elems : List JVal)

/-- Key lookup in a JSON object, first match as in a Python dict. -/
def jLookup (k : String) (d : List (String × JVal)) : Option JVal :=
  (d.find? fun p => p.1 = k).map (·.2)

/-- `ModuleProgress.to_dict` (state.py lines 28-29): `asdict(self)`, the
record as a JSON object with one key per field. -/
def ModuleProgress.to_dict (m : ModuleProgress) : List (String × JVal) :=
  [("module_id", .str m.module_id),
   ("module_name", .str m.module_name),
   ("video_watched", .bool m.video_watched),
   ("assessment_attempts", .int m.assessment_attempts),
   ("assessment_passed", .bool m.assessment_passed),
   ("questions_answered", .int m.questions_answered),
   ("questions_correct", .int m.questions_correct),
   ("last_attempt", match m.last_attempt with | none => .null | some s => .str s)]

def asStr : JVal → Option String
  | .str s => some s
  | _ => none

def asInt : JVal → Option Int
  | .int n => some n
  | _ => none

def asBool : JVal → Option Bool
  | .bool b => some b
  | _ => none

def asOptStr : JVal → Option (Option String)
  | .null => some none
  | .str s => some (some s)
  | _ => none

def asObj : JVal → Option (List (String × JVal))
  | .obj fs => some fs
  | _ => none

/-- The keyword parameters `ModuleProgress(**data)` accepts. -/
def fieldNames : List String :=
  ["module_id", "module_name", "video_watched", "assessment_attempts",
   "assessment_passed", "questions_answered", "questions_correct", "last_attempt"]

/-- An absent optional field takes the dataclass default. -/
def decodeField {α : Type} (f : JVal → Option α) (dflt : α) : Option JVal → Option α
  | none => some dflt
  | some j => f j

/-- `ModuleProgress.from_dict` (state.py lines 31-33): `cls(**data)`.  A
key that is no parameter of the dataclass raises `TypeError` in Python
(modelled as `none`), a missing optional field takes its default, and
the two name fields are required.  Python does not type-check a
dataclass's field values; the embedding types the fields, so a value of
the wrong JSON type is also modelled as a failure. -/
def ModuleProgress.from_dict (d : List (String × JVal)) : Option ModuleProgress :=
  if d.all (fun p => fieldNames.contains p.1) then
    match (jLookup "module_id" d).bind asStr,
          (jLookup "module_name" d).bind asStr,
          decodeField asBool false (jLookup "video_watched" d),
          decodeField asInt 0 (jLookup "assessment_attempts" d),
          decodeField asBool false (jLookup "assessment_passed" d),
          decodeField asInt 0 (jLookup "questions_answered" d),
          decodeField asInt 0 (jLookup "questions_correct" d),
          decodeField asOptStr none (jLookup "last_attempt" d) with
    | some i, some n, some vw, some aa, some ap, some qa, some qc, some la =>
      some ⟨i, n, vw, aa, ap, qa, qc, la⟩
    | _, _, _, _, _, _, _, _ => none
  else none

/-- Lookup in the module collection (`self.modules[module_id]` /
`module_id not in self.modules`); the collection is an association list
in insertion order, as a Python dict keeps it. -/
def lookupModule (ms : List (String × ModuleProgress)) (id : String) :
    Option ModuleProgress :=
  (ms.find? fun p => p.1 = id).map (·.2)

/-- `self.modules[module_id] = v`: replace in place when the key exists,
else append (a Python dict keeps insertion order). -/
def setModule (ms : List (String × ModuleProgress)) (id : String)
    (v : ModuleProgress) : List (String × ModuleProgress) :=
  if (ms.find? fun p => p.1 = id).isSome then
    ms.map fun p => if p.1 = id then (id, v) else p
  else ms ++ [(id, v)]

/-- The JSON document `save` writes (state.py lines 60-68): the whole
collection serialized under `"modules"`, plus a `"last_saved"`
timestamp. -/
def storeJson (ms : List (String × ModuleProgress)) (now : String) : JVal :=
  .obj [("modules", .obj (ms.map fun p => (p.1, .obj p.2.to_dict))),
        ("last_saved", .str now)]

/-- `TrainingState`, restricted to what the claims need: the module
collection, and the durable file contents as last written (`none` when
this session has not saved yet). -/
structure State where
  modules : List (String × ModuleProgress)
  saved : Option JVal

/-- `TrainingState.save` (state.py lines 60-71): serialize the entire
store and overwrite the backing file.  `now` stands for
`datetime.now().isoformat()`. -/
def State.save (st : State) (now : String) : State :=
  { st with saved := some (storeJson st.modules now) }

/-- `TrainingState.get_or_create_module` (state.py lines 73-84).  On a
missing id a record is created with name `module_name or module_id`
(Python truthiness: the empty string falls back to the id) and the store
is saved; on an existing id whose stored name is empty and with a
non-empty `module_name`, the name is backfilled and the store is saved;
otherwise nothing changes.  Returns the state and the looked-up record. -/
def State.get_or_create_module (st : State) (module_id module_name now : String) :
    State × ModuleProgress :=
  match lookupModule st.modules module_id with
  | none =>
    let m : ModuleProgress :=
      { module_id := module_id
        module_name := if module_name = "" then module_id else module_name }
    let st1 : State := { st with modules := setModule st.modules module_id m }
    (st1.save now, m)
  | some m =>
    if module_name ≠ "" ∧ m.module_name = "" then
      let m1 := { m with module_name := module_name }
      let st1 : State := { st with modules := setModule st.modules module_id m1 }
      (st1.save now, m1)
    else (st, m)

/-- `TrainingState.mark_video_watched` (state.py lines 86-91):
get-or-create the module (with the empty default name), set its watched
flag in place, save. -/
def State.mark_video_watched (st : State) (module_id now : String) : State :=
  let p := st.get_or_create_module module_id "" now
  let m1 := { p.2 with video_watched := true }
  let st1 : State := { p.1 with modules := setModule p.1.modules module_id m1 }
  st1.save now

/-- `TrainingState.record_assessment_attempt` (state.py lines 93-105):
get-or-create the module (with the empty default name), increment its
attempt counter, overwrite the pass flag, the two question counts and
the attempt timestamp, save. -/
def State.record_assessment_attempt (st : State) (module_id : String) (passed : Bool)
    (questions_total questions_correct : Int) (now : String) : State :=
  let p := st.get_or_create_module module_id "" now
  let m1 := { p.2 with
    assessment_attempts := p.2.assessment_attempts + 1
    assessment_passed := passed
    questions_answered := questions_total
    questions_correct := questions_correct
    last_attempt := some now }
  let st1 : State := { p.1 with modules := setModule p.1.modules module_id m1 }
  st1.save now

/-- One entry of `get_failed_assessments`'s result. -/
structure FailedEntry where
  id : String
  name : String
  attempts : Int
deriving DecidableEq, Repr

/-- `TrainingState.get_failed_assessments` (state.py lines 120-130): the
modules, in collection order, whose video was watched and whose
assessment has not passed. -/
def State.get_failed_assessments (st : State) : List FailedEntry :=
  st.modules.filterMap fun p =>
    if p.2.video_watched && !p.2.assessment_passed then
      some ⟨p.1, p.2.module_name, p.2.assessment_attempts⟩
    else none

/-- Decoding one entry of the saved `"modules"` object: the value must
be an object `from_dict` accepts. -/
def decodeEntry (p : String × JVal) : Option (String × ModuleProgress) := do
  let d ← asObj p.2
  let m ← ModuleProgress.from_dict d
  pure (p.1, m)

/-- Decoding the saved document back into a module collection, as
`_load` reads it (state.py lines 48-53): the document must be an object,
`data.get('modules', {})` must be an object (absent means empty), and
each value must be an object `from_dict` accepts; any failure stands for
the exception `_load` catches. -/
def decodeStore (j : JVal) : Option (List (String × ModuleProgress)) := do
  let top ← asObj j
  let entries ← asObj ((jLookup "modules" top).getD (.obj []))
  entries.mapM decodeEntry

/-- What the backing file holds at startup: missing, unparseable by
`json.load`, or parsed into a JSON value. -/
inductive FileState where
  | missing
  | corrupt
  | parsed (j : JVal)

/-- `TrainingState._load` (state.py lines 45-58): a missing file is
logged and leaves the collection empty; a `json.load` failure or any
decoding failure is caught, logged, and leaves the collection empty
(`self.modules` is only assigned after the whole comprehension
succeeds); otherwise the decoded collection is installed. -/
def loadModules : FileState → List (String × ModuleProgress)
  | .missing => []
  | .corrupt => []
  | .parsed j => (decodeStore j).getD []

/-- One bookkeeping call mutating the Progress Store, with its
`datetime.now()` timestamp made explicit. -/
inductive BkCall where
  | getOrCreate (module_id module_name now : String)
  | markWatched (module_id now : String)
  | recordAttempt (module_id : String) (passed : Bool)
      (questions_total questions_correct : Int) (now : String)

/-- Dispatch of one bookkeeping call to the Progress Store. -/
def applyCall (st : State) : BkCall → State
  | .getOrCreate id name now => (st.get_or_create_module id name now).1
  | .markWatched id now => st.mark_video_watched id now
  | .recordAttempt id p qt qc now => st.record_assessment_attempt id p qt qc now

/-- A sequence of bookkeeping calls, applied in order. -/
def applyCalls (st : State) (cs : List BkCall) : State :=
  cs.foldl applyCall st

/-- The stored display name of a module, when the module exists. -/
def nameOf (st : State) (id : String) : Option String :=
  (lookupModule st.modules id).map (·.module_name)

/-- The timestamp of a bookkeeping call. -/
def nowOfCall : BkCall → String
  | .getOrCreate _ _ now => now
  | .markWatched _ now => now
  | .recordAttempt _ _ _ _ now => now

/-- Does the call always end in a save? -/
def alwaysSaves : BkCall → Prop
  | .getOrCreate _ _ _ => False
  | .markWatched _ _ => True
  | .recordAttempt _ _ _ _ _ => True

/-- `record_assessment_attempt` applied for each `(passed,
questions_total, questions_correct, now)` tuple in order. -/
def recordAll (st : State) (id : String)
    (args : List (Bool × Int × Int × String)) : State :=
  args.foldl (fun s a => s.record_assessment_attempt id a.1 a.2.1 a.2.2.1 a.2.2.2) st

end TrainingState

namespace TrainingAgent

/-- An Action Cache: name to screen coordinates, insertion order. -/
abbrev ActionCache := List (String × Int × Int)

/-- `self.actions_cache` lookup (`action_name in self.actions_cache`). -/
def lookupCache (cache : ActionCache) (name : String) : Option (Int × Int) :=
  ((List.find? (fun p => p.1 = name)) cache).map fun p => (p.2.1, p.2.2)

/-- The observable side effects of one custom-tool dispatch. -/
structure ClickEffects where
  clicks : List (Int × Int)
  screenshots_taken : Nat
deriving DecidableEq, Repr

/-- The `use_cached_action` branch of
`TrainingAgent._execute_custom_tool` (agent.py lines 229-238): when the
name is cached, click the cached coordinates, take a screenshot (the
`screenshot_b64` value is never used), and return a text message; when
it is not cached, return an error text.  The function's value is the
returned string plus the side effects performed. -/
def use_cached_action (cache : ActionCache) (action_name : String) :
    String × ClickEffects :=
  match lookupCache cache action_name with
  | some (x, y) =>
    ("Clicked cached location '" ++ action_name ++ "' at (" ++ toString x ++ ", " ++
       toString y ++ "). Screenshot taken.",
     ⟨[(x, y)], 1⟩)
  | none =>
    ("Error: No cached action named '" ++ action_name ++ "'. Available: " ++
       toString (cache.map (·.1)),
     ⟨[], 0⟩)

/-- How `agentic_loop` wraps a custom tool's return value into a
tool-result block's content (agent.py lines 379-381): a single text
block holding the returned string. -/
def customToolResultContent (result_text : String) : List RItem :=
  [.text result_text]

end TrainingAgent

namespace TrainingAgent

lemma truncRItems_cons (keep c : Nat) (r : RItem) (rs : List RItem) :
    truncRItems keep c (r :: rs) =
      ((truncRItem keep c r).1 :: (truncRItems keep (truncRItem keep c r).2 rs).1,
       (truncRItems keep (truncRItem keep c r).2 rs).2) := rfl

lemma rItemsImages_nil : rItemsImages [] = [] := rfl

lemma rItemsImages_cons_image (s : String) (rs : List RItem) :
    rItemsImages (.image s :: rs) = s :: rItemsImages rs := rfl

lemma rItemsImages_cons_text (t : String) (rs : List RItem) :
    rItemsImages (.text t :: rs) = rItemsImages rs := rfl

lemma rItemsImages_cons_other (tag : String) (rs : List RItem) :
    rItemsImages (.other tag :: rs) = rItemsImages rs := rfl

lemma truncRItem_image_snd (keep c : Nat) (s : String) :
    (truncRItem keep c (.image s)).2 = c + 1 := by
  by_cases h : c + 1 > keep <;> simp [truncRItem, h]

lemma truncRItem_image_evicted (keep c : Nat) (s : String) (h : c + 1 > keep) :
    (truncRItem keep c (.image s)).1 = .text placeholder := by
  simp [truncRItem, h]

lemma truncRItem_image_kept (keep c : Nat) (s : String) (h : ¬ c + 1 > keep) :
    (truncRItem keep c (.image s)).1 = .image s := by
  simp [truncRItem, h]

lemma truncRItems_snd (keep : Nat) : ∀ (c : Nat) (rs : List RItem),
    (truncRItems keep c rs).2 = c + (rItemsImages rs).length := by
  intro c rs
  induction rs generalizing c with
  | nil => rfl
  | cons r rs ih =>
    rw [truncRItems_cons]
    cases r with
    | image s =>
      show (truncRItems keep (truncRItem keep c (.image s)).2 rs).2 = _
      rw [truncRItem_image_snd, ih, rItemsImages_cons_image, List.length_cons]
      omega
    | text t =>
      show (truncRItems keep c rs).2 = _
      rw [ih, rItemsImages_cons_text]
    | other tag =>
      show (truncRItems keep c rs).2 = _
      rw [ih, rItemsImages_cons_other]

lemma truncRItems_images (keep : Nat) : ∀ (c : Nat) (rs : List RItem),
    rItemsImages (truncRItems keep c rs).1 = (rItemsImages rs).take (keep - c) := by
  intro c rs
  induction rs generalizing c with
  | nil => simp [truncRItems, rItemsImages]
  | cons r rs ih =>
    rw [truncRItems_cons]
    cases r with
    | image s =>
      show rItemsImages
          ((truncRItem keep c (.image s)).1 ::
            (truncRItems keep (truncRItem keep c (.image s)).2 rs).1) =
        List.take (keep - c) (rItemsImages (.image s :: rs))
      rw [truncRItem_image_snd, rItemsImages_cons_image]
      by_cases h : c + 1 > keep
      · rw [truncRItem_image_evicted keep c s h, rItemsImages_cons_text, ih]
        have h0 : keep - c = 0 := by omega
        have h1 : keep - (c + 1) = 0 := by omega
        rw [h0, h1, List.take_zero, List.take_zero]
      · rw [truncRItem_image_kept keep c s h, rItemsImages_cons_image, ih]
        have h2 : keep - c = (keep - (c + 1)) + 1 := by omega
        rw [h2, List.take_succ_cons]
    | text t =>
      show rItemsImages (.text t :: (truncRItems keep c rs).1) =
        List.take (keep - c) (rItemsImages (.text t :: rs))
      rw [rItemsImages_cons_text, rItemsImages_cons_text, ih]
    | other tag =>
      show rItemsImages (.other tag :: (truncRItems keep c rs).1) =
        List.take (keep - c) (rItemsImages (.other tag :: rs))
      rw [rItemsImages_cons_other, rItemsImages_cons_other, ih]

lemma truncRItems_forall₂ (keep : Nat) : ∀ (c : Nat) (rs : List RItem),
    List.Forall₂ RRel rs (truncRItems keep c rs).1 := by
  intro c rs
  induction rs generalizing c with
  | nil => simp [truncRItems]
  | cons r rs ih =>
    cases r with
    | image s =>
      by_cases h : c + 1 > keep <;>
        exact List.Forall₂.cons (by simp [truncRItem, h, RRel]) (ih _)
    | text t => exact List.Forall₂.cons (Or.inl rfl) (ih _)
    | other tag => exact List.Forall₂.cons (Or.inl rfl) (ih _)

lemma truncCItem_snd (keep c : Nat) (it : CItem) :
    (truncCItem keep c it).2 = c + (cItemImages it).length := by
  cases it with
  | toolResult rc =>
    cases rc with
    | none => simp [truncCItem, cItemImages]
    | some rs => simp [truncCItem, cItemImages, truncRItems_snd]
  | image s => simp [truncCItem, cItemImages]
  | text t => simp [truncCItem, cItemImages]
  | other tag => simp [truncCItem, cItemImages]

lemma truncCItem_images (keep c : Nat) (it : CItem) :
    cItemImages (truncCItem keep c it).1 = (cItemImages it).take (keep - c) := by
  cases it with
  | toolResult rc =>
    cases rc with
    | none => simp [truncCItem, cItemImages]
    | some rs => simp [truncCItem, cItemImages, truncRItems_images]
  | image s => simp [truncCItem, cItemImages]
  | text t => simp [truncCItem, cItemImages]
  | other tag => simp [truncCItem, cItemImages]

lemma truncCItem_crel (keep c : Nat) (it : CItem) :
    CRel it (truncCItem keep c it).1 := by
  cases it with
  | toolResult rc =>
    cases rc with
    | none => exact Or.inl rfl
    | some rs => exact Or.inr ⟨rs, _, rfl, rfl, truncRItems_forall₂ keep c rs⟩
  | image s => exact Or.inl rfl
  | text t => exact Or.inl rfl
  | other tag => exact Or.inl rfl

lemma truncCItems_cons (keep c : Nat) (it : CItem) (its : List CItem) :
    truncCItems keep c (it :: its) =
      ((truncCItem keep c it).1 :: (truncCItems keep (truncCItem keep c it).2 its).1,
       (truncCItems keep (truncCItem keep c it).2 its).2) := rfl

lemma cItemsImages_cons (it : CItem) (its : List CItem) :
    cItemsImages (it :: its) = cItemImages it ++ cItemsImages its := by
  simp [cItemsImages]

lemma truncCItems_snd (keep : Nat) : ∀ (c : Nat) (its : List CItem),
    (truncCItems keep c its).2 = c + (cItemsImages its).length := by
  intro c its
  induction its generalizing c with
  | nil => simp [truncCItems, cItemsImages]
  | cons it its ih =>
    rw [truncCItems_cons]
    show (truncCItems keep (truncCItem keep c it).2 its).2 = _
    rw [ih, truncCItem_snd, cItemsImages_cons, List.length_append]
    omega

lemma truncCItems_images (keep : Nat) : ∀ (c : Nat) (its : List CItem),
    cItemsImages (truncCItems keep c its).1 = (cItemsImages its).take (keep - c) := by
  intro c its
  induction its generalizing c with
  | nil => simp [truncCItems, cItemsImages]
  | cons it its ih =>
    rw [truncCItems_cons]
    show cItemsImages
        ((truncCItem keep c it).1 :: (truncCItems keep (truncCItem keep c it).2 its).1) = _
    rw [cItemsImages_cons, cItemsImages_cons, ih, truncCItem_images, truncCItem_snd,
      List.take_append_eq_append_take]
    congr 2
    omega

lemma truncCItems_forall₂ (keep : Nat) : ∀ (c : Nat) (its : List CItem),
    List.Forall₂ CRel its (truncCItems keep c its).1 := by
  intro c its
  induction its generalizing c with
  | nil => simp [truncCItems]
  | cons it its ih => exact List.Forall₂.cons (truncCItem_crel keep c it) (ih _)

lemma truncMessage_snd (keep c : Nat) (m : Message) :
    (truncMessage keep c m).2 = c + (messageImages m).length := by
  by_cases h : m.role = "user"
  · cases hc : m.content with
    | none => simp [truncMessage, messageImages, h, hc]
    | some its =>
      simp [truncMessage, messageImages, h, hc, truncCItems_snd, cItemsImages]
  · simp [truncMessage, messageImages, h]

lemma truncMessage_images (keep c : Nat) (m : Message) :
    messageImages (truncMessage keep c m).1 = (messageImages m).take (keep - c) := by
  by_cases h : m.role = "user"
  · cases hc : m.content with
    | none => simp [truncMessage, messageImages, h, hc]
    | some its =>
      have := truncCItems_images keep c its
      simp only [truncMessage, h, hc, if_true, messageImages]
      simpa [cItemsImages, messageImages, h] using this
  · simp [truncMessage, messageImages, h]

lemma truncMessage_mrel (keep c : Nat) (m : Message) :
    MRel m (truncMessage keep c m).1 := by
  by_cases h : m.role = "user"
  · cases hc : m.content with
    | none =>
      refine ⟨?_, fun _ => ?_, Or.inl ?_⟩ <;> simp [truncMessage, h, hc]
    | some its =>
      refine ⟨?_, fun hne => absurd h hne, Or.inr ⟨its, _, hc, ?_, truncCItems_forall₂ keep c its⟩⟩ <;>
        simp [truncMessage, h, hc]
  · refine ⟨?_, fun _ => ?_, Or.inl ?_⟩ <;> simp [truncMessage, h]

lemma truncMessagesRev_cons (keep c : Nat) (m : Message) (ms : List Message) :
    truncMessagesRev keep c (m :: ms) =
      ((truncMessage keep c m).1 :: (truncMessagesRev keep (truncMessage keep c m).2 ms).1,
       (truncMessagesRev keep (truncMessage keep c m).2 ms).2) := rfl

lemma msgsRevImages_cons (m : Message) (ms : List Message) :
    msgsRevImages (m :: ms) = messageImages m ++ msgsRevImages ms := by
  simp [msgsRevImages]

lemma truncMessagesRev_snd (keep : Nat) : ∀ (c : Nat) (ms : List Message),
    (truncMessagesRev keep c ms).2 = c + (msgsRevImages ms).length := by
  intro c ms
  induction ms generalizing c with
  | nil => simp [truncMessagesRev, msgsRevImages]
  | cons m ms ih =>
    rw [truncMessagesRev_cons]
    show (truncMessagesRev keep (truncMessage keep c m).2 ms).2 = _
    rw [ih, truncMessage_snd, msgsRevImages_cons, List.length_append]
    omega

lemma truncMessagesRev_images (keep : Nat) : ∀ (c : Nat) (ms : List Message),
    msgsRevImages (truncMessagesRev keep c ms).1 = (msgsRevImages ms).take (keep - c) := by
  intro c ms
  induction ms generalizing c with
  | nil => simp [truncMessagesRev, msgsRevImages]
  | cons m ms ih =>
    rw [truncMessagesRev_cons]
    show msgsRevImages
        ((truncMessage keep c m).1 :: (truncMessagesRev keep (truncMessage keep c m).2 ms).1) = _
    rw [msgsRevImages_cons, msgsRevImages_cons, ih, truncMessage_images, truncMessage_snd,
      List.take_append_eq_append_take]
    congr 2
    omega

lemma truncMessagesRev_forall₂ (keep : Nat) : ∀ (c : Nat) (ms : List Message),
    List.Forall₂ MRel ms (truncMessagesRev keep c ms).1 := by
  intro c ms
  induction ms generalizing c with
  | nil => simp [truncMessagesRev]
  | cons m ms ih => exact List.Forall₂.cons (truncMessage_mrel keep c m) (ih _)

lemma truncate_forall₂ (msgs : List Message) (keep : Nat) :
    List.Forall₂ MRel msgs (truncate_old_images msgs keep) := by
  have h := truncMessagesRev_forall₂ keep 0 msgs.reverse
  rw [truncate_old_images]
  rw [← List.reverse_reverse msgs] at h ⊢
  exact (List.forall₂_reverse_iff).mp (by simpa using h)

lemma truncate_scanImages (msgs : List Message) (keep : Nat) :
    scanImages (truncate_old_images msgs keep) = (scanImages msgs).take keep := by
  have h := truncMessagesRev_images keep 0 msgs.reverse
  simp only [scanImages, truncate_old_images, List.reverse_reverse]
  simpa [msgsRevImages] using h

lemma truncRItems_noop (keep : Nat) : ∀ (c : Nat) (rs : List RItem),
    c + (rItemsImages rs).length ≤ keep →
    truncRItems keep c rs = (rs, c + (rItemsImages rs).length) := by
  intro c rs
  induction rs generalizing c with
  | nil => intro _; simp [truncRItems, rItemsImages]
  | cons r rs ih =>
    intro h
    rw [truncRItems_cons]
    cases r with
    | image s =>
      rw [rItemsImages_cons_image, List.length_cons] at h ⊢
      have hk : ¬ c + 1 > keep := by omega
      rw [truncRItem_image_kept keep c s hk, truncRItem_image_snd,
        ih (c + 1) (by omega)]
      simp only [Prod.mk.injEq, List.cons.injEq, true_and, and_true]
      omega
    | text t =>
      rw [rItemsImages_cons_text] at h ⊢
      show ((RItem.text t) :: (truncRItems keep c rs).1, (truncRItems keep c rs).2) = _
      rw [ih c h]
    | other tag =>
      rw [rItemsImages_cons_other] at h ⊢
      show ((RItem.other tag) :: (truncRItems keep c rs).1, (truncRItems keep c rs).2) = _
      rw [ih c h]

lemma truncCItem_noop (keep c : Nat) (it : CItem)
    (h : c + (cItemImages it).length ≤ keep) :
    truncCItem keep c it = (it, c + (cItemImages it).length) := by
  cases it with
  | toolResult rc =>
    cases rc with
    | none => simp [truncCItem, cItemImages]
    | some rs =>
      have h' : c + (rItemsImages rs).length ≤ keep := by
        simpa [cItemImages] using h
      simp only [truncCItem, truncRItems_noop keep c rs h', cItemImages]
  | image s => simp [truncCItem, cItemImages]
  | text t => simp [truncCItem, cItemImages]
  | other tag => simp [truncCItem, cItemImages]

lemma truncCItems_noop (keep : Nat) : ∀ (c : Nat) (its : List CItem),
    c + (cItemsImages its).length ≤ keep →
    truncCItems keep c its = (its, c + (cItemsImages its).length) := by
  intro c its
  induction its generalizing c with
  | nil => intro _; simp [truncCItems, cItemsImages]
  | cons it its ih =>
    intro h
    rw [cItemsImages_cons, List.length_append] at h ⊢
    rw [truncCItems_cons, truncCItem_noop keep c it (by omega),
      ih (c + (cItemImages it).length) (by omega)]
    simp only [Prod.mk.injEq, List.cons.injEq, true_and, and_true]
    omega

lemma truncMessage_noop (keep c : Nat) (m : Message)
    (h : c + (messageImages m).length ≤ keep) :
    truncMessage keep c m = (m, c + (messageImages m).length) := by
  obtain ⟨role, content⟩ := m
  by_cases hr : role = "user"
  · cases content with
    | none => simp [truncMessage, messageImages, hr]
    | some its =>
      have hm : messageImages ⟨role, some its⟩ = cItemsImages its := by
        simp [messageImages, hr, cItemsImages]
      rw [hm] at h ⊢
      have : truncMessage keep c ⟨role, some its⟩ =
          (⟨role, some (truncCItems keep c its).1⟩, (truncCItems keep c its).2) := by
        simp [truncMessage, hr]
      rw [this, truncCItems_noop keep c its h]
  · simp [truncMessage, messageImages, hr]

lemma truncMessagesRev_noop (keep : Nat) : ∀ (c : Nat) (ms : List Message),
    c + (msgsRevImages ms).length ≤ keep →
    truncMessagesRev keep c ms = (ms, c + (msgsRevImages ms).length) := by
  intro c ms
  induction ms generalizing c with
  | nil => intro _; simp [truncMessagesRev, msgsRevImages]
  | cons m ms ih =>
    intro h
    rw [msgsRevImages_cons, List.length_append] at h ⊢
    rw [truncMessagesRev_cons, truncMessage_noop keep c m (by omega),
      ih (c + (messageImages m).length) (by omega)]
    simp only [Prod.mk.injEq, List.cons.injEq, true_and, and_true]
    omega

lemma map_eq_of_forall₂ {α β : Type} (f : α → β) {R : α → α → Prop}
    (hf : ∀ a b, R a b → f b = f a) :
    ∀ {l l' : List α}, List.Forall₂ R l l' → l'.map f = l.map f := by
  intro l l' h
  induction h with
  | nil => rfl
  | cons hr _ ih => simp only [List.map_cons, ih, hf _ _ hr]

lemma crel_scrub (it it' : CItem) (h : CRel it it') :
    scrubCItem it' = scrubCItem it := by
  rcases h with rfl | ⟨rc, rc', h1, h2, _⟩
  · rfl
  · subst h1; subst h2; rfl

lemma mrel_view (m m' : Message) (h : MRel m m') : viewMsg m' = viewMsg m := by
  obtain ⟨hrole, _, hcont⟩ := h
  rcases hcont with rfl | ⟨its, its', h1, h2, hf⟩
  · rfl
  · obtain ⟨role, content⟩ := m
    obtain ⟨role', content'⟩ := m'
    simp only at h1 h2 hrole
    subst h1
    subst h2
    simp only [viewMsg, Option.map_some']
    rw [hrole, map_eq_of_forall₂ scrubCItem crel_scrub hf]

/-- C1, amended.  Eviction keeps untouched exactly the first
`keep_recent` images in the order the scan visits them — messages most
recent first, but blocks WITHIN a message in their original (oldest
first) order — not the `keep_recent` most recent images of the history;
the two orders agree whenever each user turn holds at most one embedded
image.  Stated as: (1) blockwise, each message keeps its role, non-user
messages are untouched, and every block is either unchanged or an image
replaced in place by the placeholder text with its payload discarded
(so ordering and count of non-image content is preserved); (2) the
surviving image payloads are exactly the first `keep_recent` payloads in
scan order; (3) exactly `min keep_recent total` images survive. -/
theorem C1_eviction_scan_order (msgs : List Message) (keep : Nat) :
    List.Forall₂ MRel msgs (truncate_old_images msgs keep) ∧
    scanImages (truncate_old_images msgs keep) = (scanImages msgs).take keep ∧
    (scanImages (truncate_old_images msgs keep)).length =
      min keep (scanImages msgs).length :=
  ⟨truncate_forall₂ msgs keep, truncate_scanImages msgs keep, by
    rw [truncate_scanImages]; exact List.length_take _ _⟩

/-- C1, counterexample.  One user turn whose tool result holds two
images, "A" then "B", so "B" is the most recent image of the history;
with `keep_recent = 1` the claim says "B" is left untouched and "A" is
replaced, but the code keeps "A" (counted first by the forward
within-message walk) and evicts "B". -/
theorem C1_most_recent_image_evicted_cex :
    scanImages [⟨"user", some [.toolResult (some [.image "A", .image "B"])]⟩]
      = ["A", "B"] ∧
    truncate_old_images
        [⟨"user", some [.toolResult (some [.image "A", .image "B"])]⟩] 1
      = [⟨"user", some [.toolResult (some [.image "A", .text placeholder])]⟩] ∧
    scanImages (truncate_old_images
        [⟨"user", some [.toolResult (some [.image "A", .image "B"])]⟩] 1)
      ≠ ["B"] :=
  ⟨by decide, by decide, by decide⟩

/-- C8.  Eviction is idempotent: applying it twice with the same
retention count produces the history of applying it once, for every
history and every retention count.  After one pass at most `keep` images
survive, so a second pass never pushes the running count past `keep` and
rewrites nothing. -/
theorem C8_eviction_idempotent (msgs : List Message) (keep : Nat) :
    truncate_old_images (truncate_old_images msgs keep) keep =
      truncate_old_images msgs keep := by
  unfold truncate_old_images
  rw [List.reverse_reverse]
  have hlen : (msgsRevImages (truncMessagesRev keep 0 msgs.reverse).1).length ≤ keep := by
    rw [truncMessagesRev_images]
    simp
  rw [truncMessagesRev_noop keep 0 _ (by simpa using hlen)]

/-- C10.  Eviction only ever rewrites image blocks nested inside
tool-result blocks of user-role turns: viewed outside tool-result
interiors every message is unchanged in place (so an image embedded
directly in a user turn's content, such as the initial screenshot of the
first user message, is never replaced and survives every application of
the policy); non-user turns are returned whole; and inside tool-result
interiors a block changes only from an image to the placeholder text. -/
theorem C10_eviction_frame (msgs : List Message) (keep : Nat) :
    (truncate_old_images msgs keep).map viewMsg = msgs.map viewMsg ∧
    List.Forall₂ (fun m m' => m.role ≠ "user" → m' = m) msgs
      (truncate_old_images msgs keep) ∧
    List.Forall₂ MRel msgs (truncate_old_images msgs keep) := by
  have h := truncate_forall₂ msgs keep
  exact ⟨map_eq_of_forall₂ viewMsg mrel_view h,
    List.Forall₂.imp (fun _ _ hr => hr.2.1) h, h⟩

end TrainingAgent


namespace TrainingState

lemma lookupModule_nil (id : String) : lookupModule [] id = none := rfl

lemma lookupModule_cons (q : String × ModuleProgress)
    (ms : List (String × ModuleProgress)) (id : String) :
    lookupModule (q :: ms) id = if q.1 = id then some q.2 else lookupModule ms id := by
  by_cases h : q.1 = id
  · simp [lookupModule, List.find?_cons, h]
  · simp [lookupModule, List.find?_cons, h]

lemma lookupModule_map_replace (id : String) (v : ModuleProgress) :
    ∀ (ms : List (String × ModuleProgress)),
    (ms.find? fun p => p.1 = id).isSome = true →
    lookupModule (ms.map fun p => if p.1 = id then (id, v) else p) id = some v := by
  intro ms
  induction ms with
  | nil => intro h; simp [List.find?] at h
  | cons p ms ih =>
    intro h
    rw [List.map_cons]
    by_cases hp : p.1 = id
    · rw [if_pos hp, lookupModule_cons, if_pos rfl]
    · rw [if_neg hp, lookupModule_cons, if_neg hp]
      rw [List.find?_cons_of_neg ms (by simp [hp])] at h
      exact ih h

lemma lookupModule_map_replace_other (id id' : String) (v : ModuleProgress)
    (h : id' ≠ id) :
    ∀ (ms : List (String × ModuleProgress)),
    lookupModule (ms.map fun p => if p.1 = id then (id, v) else p) id' =
      lookupModule ms id' := by
  intro ms
  induction ms with
  | nil => rfl
  | cons p ms ih =>
    rw [List.map_cons]
    by_cases hp : p.1 = id
    · have h1 : ¬ ((id, v).1 = id') := fun hc => h hc.symm
      have h2 : ¬ (p.1 = id') := by rw [hp]; exact fun hc => h hc.symm
      rw [if_pos hp, lookupModule_cons, if_neg h1, lookupModule_cons, if_neg h2, ih]
    · rw [if_neg hp, lookupModule_cons, lookupModule_cons, ih]

lemma lookupModule_set_self (ms : List (String × ModuleProgress))
    (id : String) (v : ModuleProgress) :
    lookupModule (setModule ms id v) id = some v := by
  unfold setModule
  by_cases h : (ms.find? fun p => p.1 = id).isSome
  · simpa [h] using lookupModule_map_replace id v ms h
  · have h0 : (ms.find? fun p => p.1 = id) = none := by
      cases hx : ms.find? fun p => p.1 = id
      · rfl
      · rw [hx] at h; simp at h
    rw [if_neg h]
    simp [lookupModule, List.find?_append, h0, List.find?_cons]

lemma lookupModule_set_other (ms : List (String × ModuleProgress))
    (id id' : String) (v : ModuleProgress) (h : id' ≠ id) :
    lookupModule (setModule ms id v) id' = lookupModule ms id' := by
  unfold setModule
  by_cases hs : (ms.find? fun p => p.1 = id).isSome
  · rw [if_pos hs]
    exact lookupModule_map_replace_other id id' v h ms
  · rw [if_neg hs]
    have h1 : ¬ ((id, v).1 = id') := fun hc => h hc.symm
    simp [lookupModule, List.find?_append, List.find?_cons, h1, Option.or_none]

lemma save_modules (st : State) (now : String) :
    (State.save st now).modules = st.modules := rfl

lemma save_saved (st : State) (now : String) :
    (State.save st now).saved = some (storeJson st.modules now) := rfl

/-- The record created on a missing id. -/
def freshModule (id name : String) : ModuleProgress :=
  ⟨id, if name = "" then id else name, false, 0, false, 0, 0, none⟩

lemma get_or_create_absent (st : State) (id name now : String)
    (h : lookupModule st.modules id = none) :
    st.get_or_create_module id name now =
      (⟨setModule st.modules id (freshModule id name),
        some (storeJson (setModule st.modules id (freshModule id name)) now)⟩,
       freshModule id name) := by
  simp only [State.get_or_create_module, h]
  rfl

lemma get_or_create_present_backfill (st : State) (id name now : String)
    (m : ModuleProgress) (h : lookupModule st.modules id = some m)
    (hn : name ≠ "") (he : m.module_name = "") :
    st.get_or_create_module id name now =
      (⟨setModule st.modules id { m with module_name := name },
        some (storeJson (setModule st.modules id { m with module_name := name }) now)⟩,
       { m with module_name := name }) := by
  simp only [State.get_or_create_module, h]
  rw [if_pos (show name ≠ "" ∧ m.module_name = "" from ⟨hn, he⟩)]
  rfl

lemma get_or_create_present_noop (st : State) (id name now : String)
    (m : ModuleProgress) (h : lookupModule st.modules id = some m)
    (hc : ¬ (name ≠ "" ∧ m.module_name = "")) :
    st.get_or_create_module id name now = (st, m) := by
  simp only [State.get_or_create_module, h]
  rw [if_neg hc]

lemma get_or_create_default (st : State) (id now : String) (m : ModuleProgress)
    (h : lookupModule st.modules id = some m) :
    st.get_or_create_module id "" now = (st, m) :=
  get_or_create_present_noop st id "" now m h (by simp)

lemma get_or_create_lookup_other (st : State) (id' name now id : String)
    (h : id ≠ id') :
    lookupModule (st.get_or_create_module id' name now).1.modules id =
      lookupModule st.modules id := by
  cases hl : lookupModule st.modules id' with
  | none =>
    rw [get_or_create_absent st id' name now hl]
    exact lookupModule_set_other _ _ _ _ h
  | some m =>
    by_cases hc : name ≠ "" ∧ m.module_name = ""
    · rw [get_or_create_present_backfill st id' name now m hl hc.1 hc.2]
      exact lookupModule_set_other _ _ _ _ h
    · rw [get_or_create_present_noop st id' name now m hl hc]

lemma mark_lookup_other (st : State) (id' now id : String) (h : id ≠ id') :
    lookupModule (st.mark_video_watched id' now).modules id =
      lookupModule st.modules id := by
  show lookupModule (setModule (st.get_or_create_module id' "" now).1.modules id'
      { (st.get_or_create_module id' "" now).2 with video_watched := true }) id =
    lookupModule st.modules id
  rw [lookupModule_set_other _ _ _ _ h, get_or_create_lookup_other st id' "" now id h]

lemma mark_lookup_self_present (st : State) (id now : String) (m : ModuleProgress)
    (h : lookupModule st.modules id = some m) :
    lookupModule (st.mark_video_watched id now).modules id =
      some { m with video_watched := true } := by
  show lookupModule (setModule (st.get_or_create_module id "" now).1.modules id
      { (st.get_or_create_module id "" now).2 with video_watched := true }) id = _
  rw [get_or_create_default st id now m h]
  exact lookupModule_set_self _ _ _

lemma mark_lookup_self_absent (st : State) (id now : String)
    (h : lookupModule st.modules id = none) :
    lookupModule (st.mark_video_watched id now).modules id =
      some { freshModule id "" with video_watched := true } := by
  show lookupModule (setModule (st.get_or_create_module id "" now).1.modules id
      { (st.get_or_create_module id "" now).2 with video_watched := true }) id = _
  rw [get_or_create_absent st id "" now h]
  exact lookupModule_set_self _ _ _

lemma record_lookup_other (st : State) (id' : String) (passed : Bool)
    (qt qc : Int) (now id : String) (h : id ≠ id') :
    lookupModule (st.record_assessment_attempt id' passed qt qc now).modules id =
      lookupModule st.modules id := by
  show lookupModule (setModule (st.get_or_create_module id' "" now).1.modules id'
      { (st.get_or_create_module id' "" now).2 with
        assessment_attempts := (st.get_or_create_module id' "" now).2.assessment_attempts + 1
        assessment_passed := passed
        questions_answered := qt
        questions_correct := qc
        last_attempt := some now }) id = lookupModule st.modules id
  rw [lookupModule_set_other _ _ _ _ h, get_or_create_lookup_other st id' "" now id h]

lemma record_lookup_self_present (st : State) (id : String) (passed : Bool)
    (qt qc : Int) (now : String) (m : ModuleProgress)
    (h : lookupModule st.modules id = some m) :
    lookupModule (st.record_assessment_attempt id passed qt qc now).modules id =
      some { m with
        assessment_attempts := m.assessment_attempts + 1
        assessment_passed := passed
        questions_answered := qt
        questions_correct := qc
        last_attempt := some now } := by
  show lookupModule (setModule (st.get_or_create_module id "" now).1.modules id
      { (st.get_or_create_module id "" now).2 with
        assessment_attempts := (st.get_or_create_module id "" now).2.assessment_attempts + 1
        assessment_passed := passed
        questions_answered := qt
        questions_correct := qc
        last_attempt := some now }) id = _
  rw [get_or_create_default st id now m h]
  exact lookupModule_set_self _ _ _

lemma record_lookup_self_absent (st : State) (id : String) (passed : Bool)
    (qt qc : Int) (now : String)
    (h : lookupModule st.modules id = none) :
    lookupModule (st.record_assessment_attempt id passed qt qc now).modules id =
      some ⟨id, id, false, 1, passed, qt, qc, some now⟩ := by
  show lookupModule (setModule (st.get_or_create_module id "" now).1.modules id
      { (st.get_or_create_module id "" now).2 with
        assessment_attempts := (st.get_or_create_module id "" now).2.assessment_attempts + 1
        assessment_passed := passed
        questions_answered := qt
        questions_correct := qc
        last_attempt := some now }) id = _
  rw [get_or_create_absent st id "" now h]
  exact lookupModule_set_self _ _ _

lemma nameOf_some (st : State) (id s : String) (h : nameOf st id = some s) :
    ∃ m, lookupModule st.modules id = some m ∧ m.module_name = s := by
  unfold nameOf at h
  cases hl : lookupModule st.modules id with
  | none => rw [hl] at h; simp at h
  | some m =>
    rw [hl] at h
    simp only [Option.map_some', Option.some.injEq] at h
    exact ⟨m, rfl, h⟩

lemma nameOf_step (st : State) (c : BkCall) (id s : String)
    (h : nameOf st id = some s) :
    nameOf (applyCall st c) id = some s ∨
      (s = "" ∧ ∃ n, n ≠ "" ∧ nameOf (applyCall st c) id = some n) := by
  obtain ⟨m, hm, hname⟩ := nameOf_some st id s h
  cases c with
  | getOrCreate id' name now =>
    by_cases hid : id' = id
    · subst hid
      by_cases hc : name ≠ "" ∧ m.module_name = ""
      · right
        refine ⟨by rw [← hname]; exact hc.2, name, hc.1, ?_⟩
        show nameOf (st.get_or_create_module id' name now).1 id' = some name
        rw [get_or_create_present_backfill st id' name now m hm hc.1 hc.2]
        show (lookupModule (setModule st.modules id'
          { m with module_name := name }) id').map (fun q => q.module_name) = some name
        rw [lookupModule_set_self]
        rfl
      · left
        show nameOf (st.get_or_create_module id' name now).1 id' = some s
        rw [get_or_create_present_noop st id' name now m hm hc]
        unfold nameOf
        rw [hm, Option.map_some']
        exact congrArg some hname
    · left
      show nameOf (st.get_or_create_module id' name now).1 id = some s
      unfold nameOf
      rw [get_or_create_lookup_other st id' name now id fun hq => hid hq.symm]
      rw [hm, Option.map_some']
      exact congrArg some hname
  | markWatched id' now =>
    left
    by_cases hid : id' = id
    · subst hid
      show nameOf (st.mark_video_watched id' now) id' = some s
      unfold nameOf
      rw [mark_lookup_self_present st id' now m hm, Option.map_some']
      exact congrArg some hname
    · show nameOf (st.mark_video_watched id' now) id = some s
      unfold nameOf
      rw [mark_lookup_other st id' now id fun hq => hid hq.symm]
      rw [hm, Option.map_some']
      exact congrArg some hname
  | recordAttempt id' passed qt qc now =>
    left
    by_cases hid : id' = id
    · subst hid
      show nameOf (st.record_assessment_attempt id' passed qt qc now) id' = some s
      unfold nameOf
      rw [record_lookup_self_present st id' passed qt qc now m hm, Option.map_some']
      exact congrArg some hname
    · show nameOf (st.record_assessment_attempt id' passed qt qc now) id = some s
      unfold nameOf
      rw [record_lookup_other st id' passed qt qc now id fun hq => hid hq.symm]
      rw [hm, Option.map_some']
      exact congrArg some hname

lemma applyCalls_cons (st : State) (c : BkCall) (cs : List BkCall) :
    applyCalls st (c :: cs) = applyCalls (applyCall st c) cs := rfl

lemma nameOf_calls (st : State) (id s : String) (h : nameOf st id = some s) :
    ∀ (cs : List BkCall),
    nameOf (applyCalls st cs) id = some s ∨
      (s = "" ∧ ∃ n, n ≠ "" ∧ nameOf (applyCalls st cs) id = some n) := by
  intro cs
  induction cs generalizing st s with
  | nil => exact Or.inl h
  | cons c cs ih =>
    rw [applyCalls_cons]
    rcases nameOf_step st c id s h with h1 | ⟨hs, n, hn, h1⟩
    · exact ih _ _ h1
    · rcases ih _ _ h1 with h2 | ⟨hn0, _, _, _⟩
      · exact Or.inr ⟨hs, n, hn, h2⟩
      · exact absurd hn0 hn

/-- C2, amended.  A module's stored name is the name supplied on first
creation, DEFAULTING TO THE MODULE ID when that supplied name is empty
(`module_name or module_id`); afterwards the stored name is never
overwritten: any later bookkeeping call leaves a non-empty stored name
unchanged, and a stored name changes at all only by a backfill from
empty to non-empty (possible only when the name stored at first creation
was empty, i.e. when both supplied name and id were empty). -/
theorem C2_module_name_first_creation_wins (st : State)
    (module_id n1 now : String) (calls : List BkCall)
    (h : lookupModule st.modules module_id = none) :
    nameOf (st.get_or_create_module module_id n1 now).1 module_id
      = some (if n1 = "" then module_id else n1) ∧
    ((if n1 = "" then module_id else n1) ≠ "" →
      nameOf (applyCalls (st.get_or_create_module module_id n1 now).1 calls) module_id
        = some (if n1 = "" then module_id else n1)) ∧
    (∀ st' s s', nameOf st' module_id = some s →
      nameOf (applyCalls st' calls) module_id = some s' →
      s' ≠ s → s = "" ∧ s' ≠ "") := by
  have h1 : nameOf (st.get_or_create_module module_id n1 now).1 module_id
      = some (if n1 = "" then module_id else n1) := by
    rw [get_or_create_absent st module_id n1 now h]
    show (lookupModule (setModule st.modules module_id (freshModule module_id n1))
        module_id).map (fun q => q.module_name) = _
    rw [lookupModule_set_self]
    rfl
  refine ⟨h1, fun hne => ?_, fun st' s s' hs hs' hne => ?_⟩
  · rcases nameOf_calls _ module_id _ h1 calls with h2 | ⟨h0, _, _, _⟩
    · exact h2
    · exact absurd h0 hne
  · rcases nameOf_calls st' module_id s hs calls with h2 | ⟨h0, n, hn, h2⟩
    · exact absurd (Option.some.inj (h2.symm.trans hs')).symm hne
    · exact ⟨h0, (Option.some.inj (h2.symm.trans hs')) ▸ hn⟩

/-- C2, counterexample.  Creating module "m1" with the empty supplied
name stores "m1" (the id), not the supplied name "": the stored name is
not "the name supplied on first creation" as the claim states it. -/
theorem C2_default_name_cex :
    nameOf ((⟨[], none⟩ : State).get_or_create_module "m1" "" "t0").1 "m1"
      = some "m1" ∧
    nameOf ((⟨[], none⟩ : State).get_or_create_module "m1" "" "t0").1 "m1"
      ≠ some "" :=
  ⟨by decide, by decide⟩

/-- C2, witness: creating "m1" as "Alpha" and then again as "Beta"
leaves the stored name "Alpha". -/
theorem C2_module_name_witness :
    nameOf (applyCalls ((⟨[], none⟩ : State).get_or_create_module "m1" "Alpha" "t0").1
        [BkCall.getOrCreate "m1" "Beta" "t1"]) "m1"
      = some (if "Alpha" = "" then "m1" else "Alpha") :=
  (C2_module_name_first_creation_wins ⟨[], none⟩ "m1" "Alpha" "t0"
      [BkCall.getOrCreate "m1" "Beta" "t1"] rfl).2.1 (by decide)

/-- C4.  Write-through persistence: whenever a bookkeeping call mutates
the module collection — and always for mark-video-watched and
record-assessment-attempt, which save unconditionally — the call has
already saved the entire store to durable storage by the time it
returns: the backing file holds exactly the serialization of the new
collection.  (A get-or-create that changes nothing performs no save,
but then there is no mutation to lose.) -/
theorem C4_write_through (st : State) (c : BkCall)
    (h : (applyCall st c).modules ≠ st.modules ∨ alwaysSaves c) :
    (applyCall st c).saved
      = some (storeJson (applyCall st c).modules (nowOfCall c)) := by
  cases c with
  | getOrCreate id name now =>
    cases hl : lookupModule st.modules id with
    | none =>
      show (st.get_or_create_module id name now).1.saved
          = some (storeJson (st.get_or_create_module id name now).1.modules now)
      rw [get_or_create_absent st id name now hl]
    | some m =>
      by_cases hc : name ≠ "" ∧ m.module_name = ""
      · show (st.get_or_create_module id name now).1.saved
            = some (storeJson (st.get_or_create_module id name now).1.modules now)
        rw [get_or_create_present_backfill st id name now m hl hc.1 hc.2]
      · exfalso
        have heq : applyCall st (.getOrCreate id name now) = st := by
          show (st.get_or_create_module id name now).1 = st
          rw [get_or_create_present_noop st id name now m hl hc]
        rcases h with h1 | h2
        · exact h1 (by rw [heq])
        · exact h2
  | markWatched id now => rfl
  | recordAttempt id passed qt qc now => rfl

/-- C4, witness: marking "m1" watched on the fresh store leaves the
backing file holding the serialization of the resulting collection. -/
theorem C4_write_through_witness :
    (applyCall ⟨[], none⟩ (BkCall.markWatched "m1" "t1")).saved =
      some (storeJson (applyCall ⟨[], none⟩ (BkCall.markWatched "m1" "t1")).modules
        "t1") :=
  C4_write_through ⟨[], none⟩ (BkCall.markWatched "m1" "t1") (Or.inr True.intro)

lemma from_dict_to_dict (m : ModuleProgress) :
    ModuleProgress.from_dict m.to_dict = some m := by
  obtain ⟨i, n, vw, aa, ap, qa, qc, la⟩ := m
  cases la <;> rfl

lemma decodeEntry_encode (p : String × ModuleProgress) :
    decodeEntry (p.1, JVal.obj p.2.to_dict) = some p := by
  obtain ⟨k, m⟩ := p
  show (ModuleProgress.from_dict m.to_dict).bind (fun q => some (k, q)) = some (k, m)
  rw [from_dict_to_dict]
  rfl

lemma mapM_decodeEntry (ms : List (String × ModuleProgress)) :
    (ms.map fun p => (p.1, JVal.obj p.2.to_dict)).mapM decodeEntry = some ms := by
  induction ms with
  | nil => rfl
  | cons p ms ih =>
    rw [List.map_cons, List.mapM_cons, decodeEntry_encode, ih]
    rfl

lemma decodeStore_storeJson (ms : List (String × ModuleProgress)) (now : String) :
    decodeStore (storeJson ms now) = some ms := by
  show (ms.map fun p => (p.1, JVal.obj p.2.to_dict)).mapM decodeEntry = some ms
  exact mapM_decodeEntry ms

/-- C5.  Round trip: the JSON document `save` writes for any module
collection decodes back, via `_load`'s reading, to a collection equal in
every per-module field (module_id, module_name, video_watched,
assessment_attempts, assessment_passed, question counts, last-attempt
timestamp) and in order, for any number of modules including zero. -/
theorem C5_store_roundtrip (ms : List (String × ModuleProgress)) (now : String) :
    loadModules (.parsed (storeJson ms now)) = ms := by
  show (decodeStore (storeJson ms now)).getD [] = ms
  rw [decodeStore_storeJson]
  rfl

lemma record_present_fields (st : State) (id : String) (passed : Bool)
    (qt qc : Int) (now : String) (m : ModuleProgress)
    (h : lookupModule st.modules id = some m) :
    ∃ m', lookupModule (st.record_assessment_attempt id passed qt qc now).modules id
        = some m' ∧
      m'.assessment_attempts = m.assessment_attempts + 1 ∧
      m'.assessment_passed = passed ∧ m'.questions_answered = qt ∧
      m'.questions_correct = qc ∧ m'.last_attempt = some now :=
  ⟨_, record_lookup_self_present st id passed qt qc now m h, rfl, rfl, rfl, rfl, rfl⟩

lemma record_absent_fields (st : State) (id : String) (passed : Bool)
    (qt qc : Int) (now : String)
    (h : lookupModule st.modules id = none) :
    ∃ m', lookupModule (st.record_assessment_attempt id passed qt qc now).modules id
        = some m' ∧
      m'.assessment_attempts = 1 ∧
      m'.assessment_passed = passed ∧ m'.questions_answered = qt ∧
      m'.questions_correct = qc ∧ m'.last_attempt = some now :=
  ⟨_, record_lookup_self_absent st id passed qt qc now h, rfl, rfl, rfl, rfl, rfl⟩

lemma recordAll_cons (st : State) (id : String) (a : Bool × Int × Int × String)
    (args : List (Bool × Int × Int × String)) :
    recordAll st id (a :: args) =
      recordAll (st.record_assessment_attempt id a.1 a.2.1 a.2.2.1 a.2.2.2) id args := rfl

lemma recordAll_snoc (st : State) (id : String)
    (args : List (Bool × Int × Int × String)) (a : Bool × Int × Int × String) :
    recordAll st id (args ++ [a]) =
      (recordAll st id args).record_assessment_attempt id a.1 a.2.1 a.2.2.1 a.2.2.2 := by
  unfold recordAll
  rw [List.foldl_append]
  rfl

lemma recordAll_count (id : String) :
    ∀ (args : List (Bool × Int × Int × String)) (st : State) (m : ModuleProgress),
    lookupModule st.modules id = some m →
    ∃ m', lookupModule (recordAll st id args).modules id = some m' ∧
      m'.assessment_attempts = m.assessment_attempts + args.length := by
  intro args
  induction args with
  | nil => intro st m h; exact ⟨m, h, by simp⟩
  | cons a args ih =>
    intro st m h
    rw [recordAll_cons]
    obtain ⟨m1, hm1, ha1, _, _, _, _⟩ :=
      record_present_fields st id a.1 a.2.1 a.2.2.1 a.2.2.2 m h
    obtain ⟨m', hm', hc⟩ := ih _ _ hm1
    refine ⟨m', hm', ?_⟩
    rw [hc, ha1, List.length_cons]
    push_cast
    ring

/-- C6.  Starting from a store in which the module does not exist,
calling `record_assessment_attempt` N = `args.length + 1` times (N >= 1)
yields `assessment_attempts = N`, and the pass flag, the two question
counts and the attempt timestamp all equal the arguments of the last
call. -/
theorem C6_record_attempt_counts (st : State) (id : String)
    (args : List (Bool × Int × Int × String)) (a : Bool × Int × Int × String)
    (h : lookupModule st.modules id = none) :
    ∃ m, lookupModule (recordAll st id (args ++ [a])).modules id = some m ∧
      m.assessment_attempts = ((args.length + 1 : Nat) : Int) ∧
      m.assessment_passed = a.1 ∧ m.questions_answered = a.2.1 ∧
      m.questions_correct = a.2.2.1 ∧ m.last_attempt = some a.2.2.2 := by
  rw [recordAll_snoc]
  cases args with
  | nil =>
    obtain ⟨m', hm', h1, h2, h3, h4, h5⟩ :=
      record_absent_fields st id a.1 a.2.1 a.2.2.1 a.2.2.2 h
    exact ⟨m', hm', by rw [h1]; norm_num, h2, h3, h4, h5⟩
  | cons b args' =>
    have hmid : ∃ mm, lookupModule (recordAll st id (b :: args')).modules id = some mm ∧
        mm.assessment_attempts = 1 + args'.length := by
      rw [recordAll_cons]
      obtain ⟨m1, hm1, ha1, _, _, _, _⟩ :=
        record_absent_fields st id b.1 b.2.1 b.2.2.1 b.2.2.2 h
      obtain ⟨mm, hmm, hc⟩ := recordAll_count id args' _ m1 hm1
      exact ⟨mm, hmm, by rw [hc, ha1]⟩
    obtain ⟨mm, hmm, hc⟩ := hmid
    obtain ⟨m', hm', h1, h2, h3, h4, h5⟩ :=
      record_present_fields _ id a.1 a.2.1 a.2.2.1 a.2.2.2 mm hmm
    refine ⟨m', hm', ?_, h2, h3, h4, h5⟩
    rw [h1, hc, List.length_cons]
    push_cast
    ring

/-- C6, witness: two attempts on a fresh module — a 2/5 failure then a
5/5 pass — leave 2 attempts recorded with the second call's fields. -/
theorem C6_record_attempt_witness :
    ∃ m, lookupModule (recordAll ⟨[], none⟩ "m1"
        ([(false, 5, 2, "t1")] ++ [(true, 5, 5, "t2")])).modules "m1" = some m ∧
      m.assessment_attempts = 2 ∧ m.assessment_passed = true ∧
      m.questions_answered = 5 ∧ m.questions_correct = 5 ∧
      m.last_attempt = some "t2" := by
  simpa using C6_record_attempt_counts ⟨[], none⟩ "m1" [(false, 5, 2, "t1")]
    (true, 5, 5, "t2") rfl

/-- C7.  `get_failed_assessments` returns exactly the modules with
`video_watched = true` and `assessment_passed = false`: an entry for an
id is in the result precisely when the collection holds such a module
under that id (with the entry carrying its name and attempt count) — in
particular a module with failed attempts but never marked watched is
excluded. -/
theorem C7_failed_assessments_characterization (st : State)
    (id name : String) (attempts : Int) :
    (⟨id, name, attempts⟩ : FailedEntry) ∈ st.get_failed_assessments ↔
      ∃ m : ModuleProgress, (id, m) ∈ st.modules ∧ m.video_watched = true ∧
        m.assessment_passed = false ∧ name = m.module_name ∧
        attempts = m.assessment_attempts := by
  unfold State.get_failed_assessments
  rw [List.mem_filterMap]
  constructor
  · rintro ⟨⟨k, m⟩, hmem, hf⟩
    by_cases hc : (m.video_watched && !m.assessment_passed) = true
    · rw [if_pos hc] at hf
      obtain ⟨hk, hn, ha⟩ := FailedEntry.mk.inj (Option.some.inj hf)
      subst hk
      have hb := Bool.and_eq_true_iff.mp hc
      refine ⟨m, hmem, hb.1, ?_, hn.symm, ha.symm⟩
      simpa using hb.2
    · rw [if_neg hc] at hf
      exact absurd hf (by simp)
  · rintro ⟨m, hmem, hvw, hap, hn, ha⟩
    refine ⟨(id, m), hmem, ?_⟩
    have hc : (m.video_watched && !m.assessment_passed) = true := by
      rw [hvw, hap]
      rfl
    rw [if_pos hc, hn, ha]

/-- C9.  Loading never fails: a missing backing file yields the empty
collection (logged, not an error), an unparseable file is caught and
yields the empty collection, and a parsed document any part of which the
decoder rejects is likewise caught and yields the empty collection
(`self.modules` is only assigned after the whole comprehension
succeeds). -/
theorem C9_load_never_raises :
    loadModules .missing = [] ∧ loadModules .corrupt = [] ∧
    ∀ j, decodeStore j = none → loadModules (.parsed j) = [] := by
  refine ⟨rfl, rfl, fun j h => ?_⟩
  show (decodeStore j).getD [] = []
  rw [h]
  rfl

/-- C9, witness: a parsed file that is not a JSON object loads as the
empty collection. -/
theorem C9_load_witness : loadModules (.parsed (JVal.str "oops")) = [] :=
  C9_load_never_raises.2.2 (JVal.str "oops") rfl

end TrainingState

namespace TrainingAgent

/-- C3 (records the code bug).  Using the cached action "next" at
(10, 20) performs the click at the cached coordinates and takes a
screenshot, but the tool result handed back for the invocation is a
single text block ("… Screenshot taken.") — the captured screenshot
(`screenshot_b64`, an unused variable in the source) is never placed in
the result content, so no fresh observation is returned. -/
theorem C3_cached_click_returns_text_only :
    use_cached_action [("next", 10, 20)] "next" =
      ("Clicked cached location 'next' at (10, 20). Screenshot taken.",
       ⟨[(10, 20)], 1⟩) ∧
    List.filter RItem.isImageB
        (customToolResultContent (use_cached_action [("next", 10, 20)] "next").1)
      = [] :=
  ⟨by decide, rfl⟩

end TrainingAgent
